import Mathlib

/-!
Verification of the change-file merge tool (`src/lib.rs`): a shallow
embedding of its line model, change-file parser and merge engine, with
theorems settling the specification's claims.

Embedding conventions:
* `Vec<u8>` line contents become `List Nat` (each element a byte value);
  byte equality is list equality.
* `Rc<String>` filenames become `String`.
* The iterator-driven loops of `read_changefile`, `match_position` and
  `apply_changefile` become structurally recursive functions over the
  remaining line list, threading the same accumulators the Rust code keeps
  in mutable locals.
* `Result<_, Box<dyn Error>>` becomes `Except` with structured error
  values carrying the same data (filename, line number) that the Rust
  code interpolates into its error strings.
* The `eprintln!` diagnostic for a missing `@z` is modelled as a Boolean
  flag returned alongside the parsed sections.
-/

/-- One physical line: originating filename, 1-based line number, raw byte
contents with the terminator stripped (`struct FileLine` in `src/lib.rs`). -/
structure FileLine where
  filename : String
  line_num : Nat
  contents : List Nat
deriving DecidableEq

/-- One `@x`/`@y`/`@z` section of a change file
(`struct ChangeFileSection` in `src/lib.rs`). -/
structure ChangeFileSection where
  headline : FileLine
  oldlines : List FileLine
  newlines : List FileLine
deriving DecidableEq

/-- Parse errors produced by `read_changefile`: `missingAtX` models the
string `"Change file missing @x at {file}({line})"`, `endedAfterAtX` models
`"Change file ended after @x at {file}({line})"`. -/
inductive ParseError where
  | missingAtX (filename : String) (line_num : Nat)
  | endedAfterAtX (filename : String) (line_num : Nat)
deriving DecidableEq

/-- The merge error produced by `apply_changefile`: `noMatch` models the
string `"Change file section do not match [{file}({line})]"`. -/
inductive MergeError where
  | noMatch (filename : String) (line_num : Nat)
deriving DecidableEq

instance {ε α : Type} [DecidableEq ε] [DecidableEq α] :
    DecidableEq (Except ε α) := fun x y =>
  match x, y with
  | .ok a, .ok b =>
    if h : a = b then .isTrue (by rw [h])
    else .isFalse (fun hc => by cases hc; exact h rfl)
  | .error a, .error b =>
    if h : a = b then .isTrue (by rw [h])
    else .isFalse (fun hc => by cases hc; exact h rfl)
  | .ok _, .error _ => .isFalse (fun hc => by cases hc)
  | .error _, .ok _ => .isFalse (fun hc => by cases hc)

/-- The bytes of `b"@x"`. -/
def bAtX : List Nat := [0x40, 0x78]

/-- The bytes of `b"@y"`. -/
def bAtY : List Nat := [0x40, 0x79]

/-- The bytes of `b"@z"`. -/
def bAtZ : List Nat := [0x40, 0x7A]

/-- `u8::is_ascii_whitespace`: space, horizontal tab, line feed, form feed,
carriage return. -/
def isAsciiWhitespace (b : Nat) : Bool :=
  b == 0x20 || b == 0x09 || b == 0x0A || b == 0x0C || b == 0x0D

/-- `u8_slice_trim_start` from `src/lib.rs`: slice from the first
non-whitespace byte onward (the whole slice consumed gives `[]`). -/
def u8_slice_trim_start (s : List Nat) : List Nat :=
  s.dropWhile isAsciiWhitespace

/-- The comparison performed at offset `i` of the loop body of
`match_position`: the next `oldlines.len()` remaining lines, projected to
their contents, equal the old block's contents
(`weblines.range(i..).take(oldlines.len()).map(contents).eq(...)`). -/
def matchesAt (weblines oldlines : List FileLine) (i : Nat) : Bool :=
  decide (((weblines.drop i).take oldlines.length).map FileLine.contents
            = oldlines.map FileLine.contents)

/-- The search loop of `match_position`: try offsets `i, i+1, ...` for `k`
steps (the Rust loop is `for i in 0..weblines.len()`), returning the first
offset whose comparison succeeds. -/
def matchLoop (weblines oldlines : List FileLine) : Nat → Nat → Option Nat
  | _, 0 => none
  | i, k + 1 =>
    if matchesAt weblines oldlines i then some i
    else matchLoop weblines oldlines (i + 1) k

/-- `match_position` from `src/lib.rs`: `None` when fewer lines remain than
the old block needs, else the first offset of `0..weblines.len()` at which
the old block's contents occur. -/
def match_position (weblines oldlines : List FileLine) : Option Nat :=
  if weblines.length < oldlines.length then none
  else matchLoop weblines oldlines 0 weblines.length

/-- The section loop of `apply_changefile`, with the `result` accumulator
and the remaining `weblines` deque explicit: each section is located with
`match_position`; on a match the lines before it move to `result`, the
matched lines are dropped and the new lines are appended; with no sections
left the remaining lines are flushed onto `result`. -/
def applyLoop (result weblines : List FileLine) :
    List ChangeFileSection → Except MergeError (List FileLine)
  | [] => .ok (result ++ weblines)
  | s :: rest =>
    match match_position weblines s.oldlines with
    | some pos =>
      applyLoop (result ++ weblines.take pos ++ s.newlines)
        (weblines.drop (pos + s.oldlines.length)) rest
    | none => .error (.noMatch s.headline.filename s.headline.line_num)

/-- `apply_changefile` from `src/lib.rs`: run the section loop with an
empty `result` accumulator over the whole text. -/
def apply_changefile (weblines : List FileLine)
    (chfilesections : List ChangeFileSection) :
    Except MergeError (List FileLine) :=
  applyLoop [] weblines chfilesections

/-- The control state of the `read_changefile` loop nest: scanning for the
next `@x` header, collecting `oldlines` until `@y`, or collecting
`newlines` until `@z`. -/
inductive ParseState where
  | findX
  | collectOld (headline : FileLine) (acc : List FileLine)
  | collectNew (headline : FileLine) (oldlines acc : List FileLine)
deriving DecidableEq

/-- The parsing loop of `read_changefile` from `src/lib.rs`, one cursor
step per line, returning the sections together with the missing-`@z`
diagnostic flag. In `findX`, an `@x` line becomes the headline, an `@y` or
`@z` line is a fatal structure error, anything else is skipped, and end of
input ends parsing. In `collectOld`, `@y` closes the old block, end of
input is fatal, and a line is kept unless the block is still empty and the
line is whitespace-only. In `collectNew`, `@z` closes the section, end of
input closes it too but raises the diagnostic, and every other line is
kept. -/
def readLoop : ParseState → List ChangeFileSection → List FileLine →
    Except ParseError (List ChangeFileSection × Bool)
  | .findX, sections, [] => .ok (sections, false)
  | .findX, sections, l :: rest =>
    if bAtX.isPrefixOf l.contents then
      readLoop (.collectOld l []) sections rest
    else if bAtY.isPrefixOf l.contents || bAtZ.isPrefixOf l.contents then
      .error (.missingAtX l.filename l.line_num)
    else
      readLoop .findX sections rest
  | .collectOld h _, _, [] => .error (.endedAfterAtX h.filename h.line_num)
  | .collectOld h acc, sections, l :: rest =>
    if bAtY.isPrefixOf l.contents then
      readLoop (.collectNew h acc []) sections rest
    else if acc.length > 0 || (u8_slice_trim_start l.contents).length > 0 then
      readLoop (.collectOld h (acc ++ [l])) sections rest
    else
      readLoop (.collectOld h acc) sections rest
  | .collectNew h old acc, sections, [] => .ok (sections ++ [⟨h, old, acc⟩], true)
  | .collectNew h old acc, sections, l :: rest =>
    if bAtZ.isPrefixOf l.contents then
      readLoop .findX (sections ++ [⟨h, old, acc⟩]) rest
    else
      readLoop (.collectNew h old (acc ++ [l])) sections rest

/-- `read_changefile` from `src/lib.rs`, applied to the already-read line
list: parse it into sections starting in the `findX` state with no sections
yet. -/
def read_changefile (lines : List FileLine) :
    Except ParseError (List ChangeFileSection × Bool) :=
  readLoop .findX [] lines

/-- The old block's contents occur in the text as a contiguous run starting
at line offset `p`: the run fits, and the `oldlines.length` lines from `p`
are byte-equal to the old block, contents only. -/
def occursAt (weblines oldlines : List FileLine) (p : Nat) : Prop :=
  p + oldlines.length ≤ weblines.length ∧
    ((weblines.drop p).take oldlines.length).map FileLine.contents
      = oldlines.map FileLine.contents

instance (w o : List FileLine) (p : Nat) : Decidable (occursAt w o p) := by
  unfold occursAt
  exact inferInstanceAs (Decidable (_ ∧ _))

/-! ### Concrete lines used to instantiate the theorems -/

/-- Base-file line with contents `"A"`. -/
def lineA : FileLine := ⟨"base.w", 1, [0x41]⟩

/-- Base-file line with contents `"B"`. -/
def lineB : FileLine := ⟨"base.w", 2, [0x42]⟩

/-- Base-file line with contents `"C"`. -/
def lineC : FileLine := ⟨"base.w", 3, [0x43]⟩

/-- Base-file line with contents `"D"`. -/
def lineD : FileLine := ⟨"base.w", 4, [0x44]⟩

/-- Change-file header line with contents `"@x"`. -/
def chHead : FileLine := ⟨"change.ch", 1, [0x40, 0x78]⟩

/-- Change-file old-block line with contents `"B"`. -/
def chB : FileLine := ⟨"change.ch", 2, [0x42]⟩

/-- Change-file old-block line with contents `"C"`. -/
def chC : FileLine := ⟨"change.ch", 3, [0x43]⟩

/-- Change-file new-block line with contents `"X"`. -/
def chX : FileLine := ⟨"change.ch", 5, [0x58]⟩

/-- Change-file old-block line with contents `"A"`. -/
def chA1 : FileLine := ⟨"change.ch", 2, [0x41]⟩

/-- Change-file new-block line with contents `"A"`. -/
def chA2 : FileLine := ⟨"change.ch", 4, [0x41]⟩

/-- Change-file old-block line with contents `"Z"`, absent from the base. -/
def chZline : FileLine := ⟨"change.ch", 2, [0x5A]⟩

/-- Change-file empty line. -/
def chBlank1 : FileLine := ⟨"change.ch", 2, []⟩

/-- Change-file line holding two spaces. -/
def chBlank2 : FileLine := ⟨"change.ch", 3, [0x20, 0x20]⟩

/-- Change-file line with contents `"foo"`. -/
def chFoo : FileLine := ⟨"change.ch", 4, [0x66, 0x6F, 0x6F]⟩

/-- Change-file empty line after the first non-blank old-block line. -/
def chBlank3 : FileLine := ⟨"change.ch", 5, []⟩

/-- Change-file separator line with contents `"@y"`. -/
def chY : FileLine := ⟨"change.ch", 6, [0x40, 0x79]⟩

/-- Change-file terminator line with contents `"@z"`. -/
def chZmark : FileLine := ⟨"change.ch", 7, [0x40, 0x7A]⟩

/-- A line with the same contents as `lineA` but another origin. -/
def otherA : FileLine := ⟨"other.w", 8, [0x41]⟩

/-- A line with the same contents as `lineB` but another origin. -/
def otherB : FileLine := ⟨"other.w", 9, [0x42]⟩

/-! ### Helper lemmas about the match search -/

theorem matchesAt_iff {w o : List FileLine} {i : Nat} :
    matchesAt w o i = true ↔
      ((w.drop i).take o.length).map FileLine.contents
        = o.map FileLine.contents := by
  simp [matchesAt]

theorem occursAt_matchesAt {w o : List FileLine} {p : Nat}
    (h : occursAt w o p) : matchesAt w o p = true :=
  matchesAt_iff.mpr h.2

theorem occursAt_le {w o : List FileLine} {p : Nat}
    (h : occursAt w o p) : p ≤ w.length :=
  le_trans (Nat.le_add_right _ _) h.1

theorem matchesAt_occursAt {w o : List FileLine} {i : Nat}
    (hi : i ≤ w.length) (h : matchesAt w o i = true) : occursAt w o i := by
  rw [matchesAt_iff] at h
  refine ⟨?_, h⟩
  have hlen := congrArg List.length h
  simp [List.length_take, List.length_drop] at hlen
  omega

theorem matchLoop_eq_some {w o : List FileLine} :
    ∀ {k i j : Nat}, matchLoop w o i k = some j →
      i ≤ j ∧ j < i + k ∧ matchesAt w o j = true ∧
        ∀ m, i ≤ m → m < j → matchesAt w o m = false := by
  intro k
  induction k with
  | zero => intro i j h; simp [matchLoop] at h
  | succ k ih =>
    intro i j h
    by_cases hm : matchesAt w o i = true
    · simp [matchLoop, hm] at h
      subst h
      exact ⟨Nat.le_refl i, by omega, hm, fun m h1 h2 => absurd (lt_of_le_of_lt h1 h2) (lt_irrefl i)⟩
    · simp [matchLoop, hm] at h
      obtain ⟨h1, h2, h3, h4⟩ := ih h
      refine ⟨by omega, by omega, h3, fun m hm1 hm2 => ?_⟩
      rcases Nat.eq_or_lt_of_le hm1 with heq | hlt
      · subst heq; exact Bool.eq_false_iff.mpr hm
      · exact h4 m hlt hm2

theorem matchLoop_isSome_of {w o : List FileLine} :
    ∀ {k i j : Nat}, i ≤ j → j < i + k → matchesAt w o j = true →
      ∃ m, matchLoop w o i k = some m ∧ m ≤ j := by
  intro k
  induction k with
  | zero => intro i j h1 h2 _; omega
  | succ k ih =>
    intro i j h1 h2 h3
    by_cases hm : matchesAt w o i = true
    · exact ⟨i, by simp [matchLoop, hm], h1⟩
    · have hne : i ≠ j := fun he => hm (he ▸ h3)
      obtain ⟨m, hm1, hm2⟩ := @ih (i + 1) j (by omega) (by omega) h3
      exact ⟨m, by simp [matchLoop, hm, hm1], hm2⟩

theorem match_position_spec {w o : List FileLine} {p : Nat}
    (h : match_position w o = some p) :
    occursAt w o p ∧ ∀ q, q < p → ¬ occursAt w o q := by
  unfold match_position at h
  split at h
  · exact absurd h (by simp)
  · obtain ⟨h0, hlt, hm, hmin⟩ := matchLoop_eq_some h
    refine ⟨matchesAt_occursAt (by omega) hm, fun q hq hocc => ?_⟩
    have := hmin q (Nat.zero_le q) hq
    rw [occursAt_matchesAt hocc] at this
    exact Bool.noConfusion this

theorem match_position_none_of_nowhere {w o : List FileLine}
    (h : ∀ p, p ≤ w.length → ¬ occursAt w o p) : match_position w o = none := by
  unfold match_position
  split
  · rfl
  · cases hml : matchLoop w o 0 w.length with
    | none => rfl
    | some j =>
      obtain ⟨_, hlt, hm, _⟩ := matchLoop_eq_some hml
      exact absurd (matchesAt_occursAt (by omega) hm) (h j (by omega))

theorem match_position_some_of_occurs {w o : List FileLine} {p : Nat}
    (ho : o ≠ []) (h : occursAt w o p) :
    ∃ q, match_position w o = some q ∧ q ≤ p := by
  have holen : 0 < o.length := List.length_pos.mpr ho
  have hfit := h.1
  unfold match_position
  rw [if_neg (by omega)]
  exact matchLoop_isSome_of (Nat.zero_le p) (by omega) (occursAt_matchesAt h)

theorem match_position_nil_old {w : List FileLine} (hw : w ≠ []) :
    match_position w [] = some 0 := by
  unfold match_position
  rw [if_neg (by simp)]
  cases w with
  | nil => exact absurd rfl hw
  | cons a t => simp [matchLoop, matchesAt]

/-! ### Helper lemmas about the merge loop -/

theorem applyLoop_error_of_nowhere (result w : List FileLine)
    (s : ChangeFileSection) (rest : List ChangeFileSection)
    (h : ∀ p, p ≤ w.length → ¬ occursAt w s.oldlines p) :
    applyLoop result w (s :: rest) =
      .error (.noMatch s.headline.filename s.headline.line_num) := by
  have hnone := match_position_none_of_nowhere h
  simp [applyLoop, hnone]

theorem applyLoop_step (result w : List FileLine) (s : ChangeFileSection)
    (rest : List ChangeFileSection) (p : Nat)
    (h : match_position w s.oldlines = some p) :
    applyLoop result w (s :: rest) =
      applyLoop (result ++ w.take p ++ s.newlines)
        (w.drop (p + s.oldlines.length)) rest := by
  simp [applyLoop, h]

/-! ### Helper lemmas about the marker tests and the parser -/

theorem atX_false_of_marker {c : List Nat}
    (h : bAtY.isPrefixOf c = true ∨ bAtZ.isPrefixOf c = true) :
    bAtX.isPrefixOf c = false := by
  match c with
  | [] => rcases h with h | h <;> simp [bAtY, bAtZ, List.isPrefixOf] at h
  | [a] => rcases h with h | h <;> simp [bAtY, bAtZ, List.isPrefixOf] at h
  | a :: b :: t =>
    rcases h with h | h <;>
      simp [bAtX, bAtY, bAtZ, List.isPrefixOf] at h ⊢ <;> omega

theorem readLoop_findX_marker :
    ∀ (pre : List FileLine) (l : FileLine) (rest : List FileLine)
      (sections : List ChangeFileSection),
      (∀ l' ∈ pre, bAtX.isPrefixOf l'.contents = false ∧
        bAtY.isPrefixOf l'.contents = false ∧
        bAtZ.isPrefixOf l'.contents = false) →
      bAtY.isPrefixOf l.contents = true ∨ bAtZ.isPrefixOf l.contents = true →
      readLoop .findX sections (pre ++ l :: rest) =
        .error (.missingAtX l.filename l.line_num)
  | [], l, rest, sections, _, hl => by
    have hx := atX_false_of_marker hl
    have hyz : (bAtY.isPrefixOf l.contents || bAtZ.isPrefixOf l.contents) = true := by
      rcases hl with h | h <;> simp [h]
    simp [readLoop, hx, hyz]
  | a :: pre, l, rest, sections, hpre, hl => by
    obtain ⟨hax, hay, haz⟩ := hpre a (List.mem_cons_self a pre)
    simp only [List.cons_append, readLoop, hax, hay, haz]
    simpa using readLoop_findX_marker pre l rest sections
      (fun l' hl' => hpre l' (List.mem_cons_of_mem a hl')) hl

theorem readLoop_collectNew_noZ :
    ∀ (rest : List FileLine) (h : FileLine) (old acc : List FileLine)
      (sections : List ChangeFileSection),
      (∀ l ∈ rest, bAtZ.isPrefixOf l.contents = false) →
      readLoop (.collectNew h old acc) sections rest =
        .ok (sections ++ [⟨h, old, acc ++ rest⟩], true)
  | [], h, old, acc, sections, _ => by simp [readLoop]
  | l :: rest, h, old, acc, sections, hz => by
    have hl := hz l (List.mem_cons_self l rest)
    simp only [readLoop, hl]
    rw [readLoop_collectNew_noZ rest h old (acc ++ [l]) sections
      (fun l' hl' => hz l' (List.mem_cons_of_mem l hl'))]
    simp

/-! ### Helper lemmas for contents-only matching -/

theorem matchesAt_contents {w w' o o' : List FileLine}
    (hw : w.map FileLine.contents = w'.map FileLine.contents)
    (ho : o.map FileLine.contents = o'.map FileLine.contents) (i : Nat) :
    matchesAt w o i = matchesAt w' o' i := by
  have hlo : o.length = o'.length := by
    simpa using congrArg List.length ho
  simp only [matchesAt, List.map_take, List.map_drop, hw, ho, hlo]

theorem matchLoop_contents {w w' o o' : List FileLine}
    (hw : w.map FileLine.contents = w'.map FileLine.contents)
    (ho : o.map FileLine.contents = o'.map FileLine.contents) :
    ∀ (k i : Nat), matchLoop w o i k = matchLoop w' o' i k
  | 0, _ => rfl
  | k + 1, i => by
    simp only [matchLoop, matchesAt_contents hw ho i,
      matchLoop_contents hw ho k (i + 1)]

/-! ### Claim theorems -/

/-- C1 counterexample: the claim promises a pure insertion "for every state
of the remaining text", but when the remaining text is empty the search
loop of `match_position` runs zero iterations, so applying a section with
an empty old_block to an empty text fails with NoMatchError instead of
inserting the new_block. -/
theorem C1_counterexample :
    apply_changefile [] [⟨chHead, [], [chX]⟩] =
        .error (.noMatch "change.ch" 1) ∧
      apply_changefile [] [⟨chHead, [], [chX]⟩] ≠ .ok [chX] := by
  exact ⟨by decide, by decide⟩

/-- C1 (amended): for every section whose old_block is empty, provided the
remaining text is nonempty, the merge engine matches at the current cursor
position with a zero-length run, so applying the section inserts the
new_block at the cursor with no lines removed — a pure insertion — for
every such state of the remaining text; on an empty remaining text the
application instead fails with NoMatchError. -/
theorem C1_empty_old_pure_insertion (result w : List FileLine)
    (s : ChangeFileSection) (rest : List ChangeFileSection)
    (hold : s.oldlines = []) (hw : w ≠ []) :
    applyLoop result w (s :: rest) = applyLoop (result ++ s.newlines) w rest := by
  have hmp : match_position w s.oldlines = some 0 := by
    rw [hold]; exact match_position_nil_old hw
  rw [applyLoop_step result w s rest 0 hmp]
  simp [hold]

/-- C1 witness: inserting `"X"` before a one-line text leaves the line in
place and prepends the new block. -/
theorem C1_empty_old_pure_insertion_witness :
    ([lineA] : List FileLine) ≠ [] ∧
      applyLoop [] [lineA] [⟨chHead, [], [chX]⟩] =
        applyLoop ([] ++ [chX]) [lineA] [] :=
  ⟨by decide,
    C1_empty_old_pure_insertion [] [lineA] ⟨chHead, [], [chX]⟩ [] rfl (by decide)⟩

/-- C2: for every text and every section with a non-empty old_block that
matches at exactly one position `p`, applying the section yields the lines
strictly before `p`, then the new_block, then the lines after the matched
region; the resulting length plus `len(old_block)` equals the original
length plus `len(new_block)`. -/
theorem C2_unique_match_splice (w : List FileLine) (s : ChangeFileSection)
    (p : Nat) (hne : s.oldlines ≠ []) (hocc : occursAt w s.oldlines p)
    (huniq : ∀ q, q ≤ w.length → occursAt w s.oldlines q → q = p) :
    apply_changefile w [s] =
        .ok (w.take p ++ s.newlines ++ w.drop (p + s.oldlines.length)) ∧
      (w.take p ++ s.newlines ++ w.drop (p + s.oldlines.length)).length
          + s.oldlines.length = w.length + s.newlines.length := by
  obtain ⟨q, hq, hqle⟩ := match_position_some_of_occurs hne hocc
  have hqocc := (match_position_spec hq).1
  have hqp : q = p := huniq q (occursAt_le hqocc) hqocc
  rw [hqp] at hq
  have hfit := hocc.1
  constructor
  · unfold apply_changefile
    rw [applyLoop_step [] w s [] p hq]
    simp [applyLoop, List.append_assoc]
  · simp only [List.length_append, List.length_take, List.length_drop]
    omega

/-- C2 witness: base `["A","B","C","D"]` with old_block `["B","C"]` and
new_block `["X"]` yields `["A","X","D"]`. -/
theorem C2_unique_match_splice_witness :
    ([chB, chC] : List FileLine) ≠ [] ∧
      occursAt [lineA, lineB, lineC, lineD] [chB, chC] 1 ∧
      (∀ q, q ≤ 4 → occursAt [lineA, lineB, lineC, lineD] [chB, chC] q → q = 1) ∧
      apply_changefile [lineA, lineB, lineC, lineD] [⟨chHead, [chB, chC], [chX]⟩]
        = .ok [lineA, chX, lineD] := by
  refine ⟨by decide, by decide, by decide, ?_⟩
  have h := C2_unique_match_splice [lineA, lineB, lineC, lineD]
    ⟨chHead, [chB, chC], [chX]⟩ 1 (by decide) (by decide) (by decide)
  exact h.1

/-- C3: whenever the merge loop processes a section whose old_block occurs
nowhere as a contiguous byte-equal run in the remaining unconsumed text,
the whole application returns the NoMatchError carrying the section
header's filename and line number, regardless of the lines already emitted
and the sections still pending — no merged output is returned. -/
theorem C3_no_match_error (result w : List FileLine) (s : ChangeFileSection)
    (rest : List ChangeFileSection)
    (h : ∀ p, p ≤ w.length → ¬ occursAt w s.oldlines p) :
    applyLoop result w (s :: rest) =
        .error (.noMatch s.headline.filename s.headline.line_num) ∧
      ∀ out, applyLoop result w (s :: rest) ≠ .ok out := by
  have he := applyLoop_error_of_nowhere result w s rest h
  exact ⟨he, fun out hc => by rw [he] at hc; cases hc⟩

/-- C3 witness: base `["A","B","C"]` with old_block `["Z"]` fails with
NoMatchError naming the section header. -/
theorem C3_no_match_error_witness :
    (∀ p, p ≤ 3 → ¬ occursAt [lineA, lineB, lineC] [chZline] p) ∧
      applyLoop [] [lineA, lineB, lineC] [⟨chHead, [chZline], []⟩] =
        .error (.noMatch "change.ch" 1) :=
  ⟨by decide,
    (C3_no_match_error [] [lineA, lineB, lineC] ⟨chHead, [chZline], []⟩ []
      (by decide)).1⟩

/-- C4: matching is forward-only and takes the first position: when the
merge loop locates a section at offset `p` of the remaining text, `p` is an
actual occurrence, no earlier offset of the remaining text matches, and
the following sections are searched only in the text strictly after the
matched region (the cursor advances past it and never rewinds). -/
theorem C4_forward_first_match (result w : List FileLine)
    (s : ChangeFileSection) (rest : List ChangeFileSection) (p : Nat)
    (h : match_position w s.oldlines = some p) :
    (occursAt w s.oldlines p ∧ ∀ q, q < p → ¬ occursAt w s.oldlines q) ∧
      applyLoop result w (s :: rest) =
        applyLoop (result ++ w.take p ++ s.newlines)
          (w.drop (p + s.oldlines.length)) rest :=
  ⟨match_position_spec h, applyLoop_step result w s rest p h⟩

/-- C4 witness: in the text `["B","A"]` the old_block `["A"]` matches at
offset 1 and the remaining cursor advances past it. -/
theorem C4_forward_first_match_witness :
    match_position [lineB, lineA] [chA1] = some 1 ∧
      applyLoop [] [lineB, lineA] [⟨chHead, [chA1], [chX]⟩] =
        applyLoop ([] ++ [lineB] ++ [chX]) [] [] := by
  refine ⟨by decide, ?_⟩
  have h := C4_forward_first_match [] [lineB, lineA]
    ⟨chHead, [chA1], [chX]⟩ [] 1 (by decide)
  exact h.2

/-- C5: while old_block is being collected, a candidate line (one not
starting with the `@y` marker) is discarded exactly when the block is still
empty and the line is empty after removing leading whitespace; otherwise it
is appended verbatim. In particular the old-block source lines
`"", "  ", "foo", ""` parse to the old_block `["foo", ""]`. -/
theorem C5_leading_blank_trim (h l : FileLine) (acc : List FileLine)
    (sections : List ChangeFileSection) (rest : List FileLine)
    (hny : bAtY.isPrefixOf l.contents = false) :
    readLoop (.collectOld h acc) sections (l :: rest) =
        (if acc = [] ∧ u8_slice_trim_start l.contents = [] then
          readLoop (.collectOld h acc) sections rest
        else
          readLoop (.collectOld h (acc ++ [l])) sections rest) ∧
      read_changefile [chHead, chBlank1, chBlank2, chFoo, chBlank3, chY, chZmark]
        = .ok ([⟨chHead, [chFoo, chBlank3], []⟩], false) := by
  constructor
  · have hstep : readLoop (.collectOld h acc) sections (l :: rest) =
        if acc.length > 0 || (u8_slice_trim_start l.contents).length > 0 then
          readLoop (.collectOld h (acc ++ [l])) sections rest
        else readLoop (.collectOld h acc) sections rest := by
      simp [readLoop, hny]
    rw [hstep]
    rcases acc with _ | ⟨a, as⟩
    · cases htrim : u8_slice_trim_start l.contents with
      | nil => simp [htrim]
      | cons b bs => simp [htrim]
    · simp
  · decide

/-- C5 witness: with an empty block so far, the two-space line is
discarded. -/
theorem C5_leading_blank_trim_witness :
    bAtY.isPrefixOf chBlank2.contents = false ∧
      readLoop (.collectOld chHead []) [] [chBlank2, chY] =
        (if ([] : List FileLine) = [] ∧ u8_slice_trim_start chBlank2.contents = [] then
          readLoop (.collectOld chHead []) [] [chY]
        else
          readLoop (.collectOld chHead ([] ++ [chBlank2])) [] [chY]) :=
  ⟨by decide, (C5_leading_blank_trim chHead chBlank2 [] [] [chY] (by decide)).1⟩

/-- C6 counterexample: a single-section change file that rewrites `"A"` to
`"A"` applies successfully twice in a row — the old_block still exists
after the first application, so the second one does not fail with
NoMatchError as the claim asserts for every such change file. -/
theorem C6_counterexample :
    apply_changefile [lineA] [⟨chHead, [chA1], [chA2]⟩] = .ok [chA2] ∧
      apply_changefile [chA2] [⟨chHead, [chA1], [chA2]⟩] = .ok [chA2] :=
  ⟨by decide, by decide⟩

/-- C6 (amended): for every base text and single-section change file whose
first application succeeds, if the old_block no longer exists anywhere in
the result of the first application, then applying the same change file a
second time to that result fails with NoMatchError. -/
theorem C6_reapply_fails (w r : List FileLine) (s : ChangeFileSection)
    (hfirst : apply_changefile w [s] = .ok r)
    (hgone : ∀ p, p ≤ r.length → ¬ occursAt r s.oldlines p) :
    apply_changefile r [s] =
      .error (.noMatch s.headline.filename s.headline.line_num) :=
  applyLoop_error_of_nowhere [] r s [] hgone

/-- C6 witness: replacing `["B","C"]` by `["X"]` in `["A","B","C","D"]`
succeeds once and fails the second time. -/
theorem C6_reapply_fails_witness :
    apply_changefile [lineA, lineB, lineC, lineD] [⟨chHead, [chB, chC], [chX]⟩]
        = .ok [lineA, chX, lineD] ∧
      (∀ p, p ≤ 3 → ¬ occursAt [lineA, chX, lineD] [chB, chC] p) ∧
      apply_changefile [lineA, chX, lineD] [⟨chHead, [chB, chC], [chX]⟩]
        = .error (.noMatch "change.ch" 1) :=
  ⟨by decide, by decide,
    C6_reapply_fails [lineA, lineB, lineC, lineD] [lineA, chX, lineD]
      ⟨chHead, [chB, chC], [chX]⟩ (by decide) (by decide)⟩

/-- C7: if, while the parser is scanning for an `@x` header, it reaches a
line starting with `@y` or `@z` (with only marker-free lines before it),
parsing fails immediately with the structure error naming that line's file
and line number; in particular an `@y` that is the first marker in the
file is fatal. -/
theorem C7_marker_before_x (pre : List FileLine) (l : FileLine)
    (rest : List FileLine)
    (hpre : ∀ l' ∈ pre, bAtX.isPrefixOf l'.contents = false ∧
      bAtY.isPrefixOf l'.contents = false ∧
      bAtZ.isPrefixOf l'.contents = false)
    (hl : bAtY.isPrefixOf l.contents = true ∨ bAtZ.isPrefixOf l.contents = true) :
    read_changefile (pre ++ l :: rest) =
      .error (.missingAtX l.filename l.line_num) :=
  readLoop_findX_marker pre l rest [] hpre hl

/-- C7 witness: a change file whose first marker is `@y` (line 6, after one
ordinary line) is rejected with the structure error at that line. -/
theorem C7_marker_before_x_witness :
    (∀ l' ∈ ([lineA] : List FileLine), bAtX.isPrefixOf l'.contents = false ∧
        bAtY.isPrefixOf l'.contents = false ∧
        bAtZ.isPrefixOf l'.contents = false) ∧
      read_changefile [lineA, chY] = .error (.missingAtX "change.ch" 6) :=
  ⟨by decide,
    C7_marker_before_x [lineA] chY [] (by decide) (Or.inl (by decide))⟩

/-- C8: if the line cursor is exhausted while new_block is being collected
(no `@z` line remains), parsing does not fail: the diagnostic flag is
raised and the section is still emitted, closed with every line collected
after `@y` as its new_block. -/
theorem C8_missing_z_tolerated (h : FileLine) (old acc : List FileLine)
    (sections : List ChangeFileSection) (rest : List FileLine)
    (hz : ∀ l ∈ rest, bAtZ.isPrefixOf l.contents = false) :
    readLoop (.collectNew h old acc) sections rest =
      .ok (sections ++ [⟨h, old, acc ++ rest⟩], true) :=
  readLoop_collectNew_noZ rest h old acc sections hz

/-- C8 witness: a section whose new_block collection hits the end of file
is closed with the remaining line and the diagnostic flag set. -/
theorem C8_missing_z_tolerated_witness :
    (∀ l ∈ ([chX] : List FileLine), bAtZ.isPrefixOf l.contents = false) ∧
      readLoop (.collectNew chHead [chA1] []) [] [chX] =
        .ok ([⟨chHead, [chA1], [chX]⟩], true) :=
  ⟨by decide, C8_missing_z_tolerated chHead [chA1] [] [] [chX] (by decide)⟩

/-- C9: match search equality compares only the raw byte contents of the
lines: two texts and two old_blocks that agree line-by-line on contents
(whatever their filenames and line numbers) produce the same
`match_position` result. -/
theorem C9_contents_only (w w' o o' : List FileLine)
    (hw : w.map FileLine.contents = w'.map FileLine.contents)
    (ho : o.map FileLine.contents = o'.map FileLine.contents) :
    match_position w o = match_position w' o' := by
  have hlw : w.length = w'.length := by simpa using congrArg List.length hw
  have hlo : o.length = o'.length := by simpa using congrArg List.length ho
  unfold match_position
  rw [hlw, hlo, matchLoop_contents hw ho w'.length 0]

/-- C9 witness: renaming every line's origin and renumbering it leaves the
match position unchanged. -/
theorem C9_contents_only_witness :
    ([lineA, lineB].map FileLine.contents
        = [otherA, otherB].map FileLine.contents) ∧
      ([chB].map FileLine.contents = [lineB].map FileLine.contents) ∧
      match_position [lineA, lineB] [chB] = match_position [otherA, otherB] [lineB] :=
  ⟨by decide, by decide,
    C9_contents_only [lineA, lineB] [otherA, otherB] [chB] [lineB]
      (by decide) (by decide)⟩

/-- C10: when the remaining unconsumed text is empty and the current
section's old_block is also empty, the merge fails instead of inserting at
the end: `match_position` on an empty buffer returns none even for an empty
old_block, because its search loop ranges over the buffer's zero offsets
and never tests the zero-length match at the end, so `apply_changefile`
returns the NoMatchError for that section. -/
theorem C10_empty_buffer_empty_old (result : List FileLine)
    (s : ChangeFileSection) (rest : List ChangeFileSection)
    (hold : s.oldlines = []) :
    match_position [] [] = none ∧
      applyLoop result [] (s :: rest) =
        .error (.noMatch s.headline.filename s.headline.line_num) := by
  refine ⟨rfl, ?_⟩
  have hnone : match_position [] s.oldlines = none := by rw [hold]; rfl
  simp [applyLoop, hnone]

/-- C10 witness: applying a pure-insertion section to an exhausted text
errors out. -/
theorem C10_empty_buffer_empty_old_witness :
    match_position [] [] = none ∧
      applyLoop [] [] [⟨chHead, [], [chX]⟩] =
        .error (.noMatch "change.ch" 1) :=
  C10_empty_buffer_empty_old [] ⟨chHead, [], [chX]⟩ [] rfl
